import Mathlib

/-!
Shallow embedding of the `@hyurl/goroutine` library (main file `src/index.ts`,
here `src/unnamed/part_003`, plus its adapter headers) and proofs about the
claims of the specification.

The embedding models the main-side pool/dispatch/exit machinery, the
worker-side message handling, and the value codec, as executable Lean
definitions.  JS object identity of worker handles is modelled by giving
every forked worker a unique numeric `id` (drawn from a counter in the
state); `Date.now()` values are passed in explicitly as `Nat` arguments.
-/

set_option maxHeartbeats 1000000

namespace Goroutine

/-! ### Worker handles and the main-side state -/

/-- A worker handle held in the main-side pool.  `id` models JS reference
identity of the underlying `ChildProcess`/`Worker` object (each `fork`
produces a fresh object); `lastTick` models the `worker[lastTick]` timestamp
property set at fork time and refreshed on every `"TICK"` message. -/
structure Worker where
  id : Nat
  lastTick : Nat
deriving DecidableEq, Repr

/-- The adapter's `name` field (`headers.ts`: `name: "worker_threads" |
"child_process"`), consulted by `isNormalExit`. -/
inductive AdapterName where
  | child_process
  | worker_threads
deriving DecidableEq, Repr

/-- Main-side mutable module state of `index.ts` relevant to the pool:
`pool` is the `pool` array, `nextId` is the fresh-identity counter backing
the model of reference identity, and `tasks` records the pending-call table
`tasks : Map<number, {resolve, reject}>` as the list of `(uid, worker id)`
pairs, each pair standing for a pending call whose Call Request was sent to
that worker and has not yet received a Call Response. -/
structure MainState where
  pool : List Worker
  nextId : Nat
  tasks : List (Nat × Nat)
deriving DecidableEq, Repr

/-- The initial main-side state: empty pool, empty task table. -/
def initState : MainState := ⟨[], 0, []⟩

/-- `forkWorker` (index.ts lines 382-412), state part: `adapter.fork`
produces a fresh worker object, `pool.push(worker)` appends it, and
`worker[lastTick] = Date.now()` stamps it.  Returns the new state and the
worker handle that the caller (`go` / `go.start` / the exit handler) gets
back. -/
def forkWorker (s : MainState) (now : Nat) : MainState × Worker :=
  ({ s with pool := s.pool ++ [Worker.mk s.nextId now], nextId := s.nextId + 1 },
   Worker.mk s.nextId now)

/-- `isNormalExit` (index.ts lines 414-417):
`(adapter.name === "child_process" && signal === "SIGTERM") ||
 (adapter.name === "worker_threads" && code === 1)`.
`code` is `null` when the process was killed by a signal, hence
`Option Int`; `signal` is `undefined` for thread workers, hence
`Option String`. -/
def isNormalExit (adapter : AdapterName) (code : Option Int)
    (signal : Option String) : Bool :=
  (adapter = AdapterName.child_process && signal = some "SIGTERM")
    || (adapter = AdapterName.worker_threads && code = some 1)

/-- JS `Array.prototype.indexOf`: index of the first occurrence, `-1` when
absent. -/
def poolIndexOf (pool : List Worker) (w : Worker) : Int :=
  match pool with
  | [] => -1
  | x :: xs =>
    if x = w then 0
    else if poolIndexOf xs w < 0 then -1 else poolIndexOf xs w + 1

/-- The removal performed by the exit handler (index.ts lines 400-402):
`let index = pool.indexOf(worker); pool.splice(index, 1)`.
When the worker is absent, `indexOf` yields `-1` and `splice(-1, 1)`
removes the **last** element of the array. -/
def spliceRemove (pool : List Worker) (w : Worker) : List Worker :=
  if poolIndexOf pool w < 0 then pool.dropLast
  else pool.eraseIdx (poolIndexOf pool w).toNat

/-- The anonymous `.once("exit", ...)` handler installed by `forkWorker`
(index.ts lines 399-409): remove the worker from the pool and, if the exit
was not normal, fork a replacement.  The second component of the result is
the list of pending-call uids the handler rejects; the handler's body
touches only `pool` (and forks), never the `tasks` table, so this list is
always empty. -/
def handleWorkerExit (s : MainState) (w : Worker) (adapter : AdapterName)
    (code : Option Int) (signal : Option String) (now : Nat) :
    MainState × List Nat :=
  let s' : MainState := { s with pool := spliceRemove s.pool w }
  if isNormalExit adapter code signal then (s', [])
  else ((forkWorker s' now).1, [])

/-- `go.workers()` on the main side (index.ts lines 254-257): returns
`pool.length`. -/
def workersCount (s : MainState) : Nat := s.pool.length

/-- Well-formedness of the main-side state: worker identities in the pool
are pairwise distinct (JS reference identity) and every pooled identity was
drawn from the counter. -/
def PoolWF (s : MainState) : Prop :=
  (s.pool.map Worker.id).Nodup ∧ ∀ w ∈ s.pool, w.id < s.nextId

/-- States of the main side reachable through `forkWorker` and worker-exit
handling (`go.start`, the scale-up path of `go`, and `terminate` all mutate
the pool only through these two operations).  The exit step carries the
fact that the exiting worker is still pooled: each worker's `"exit"`
handler is installed with `once` semantics at fork time and is the only
code that removes that worker from the pool. -/
inductive Reachable : MainState → Prop where
  | init : Reachable initState
  | fork (s : MainState) (now : Nat) :
      Reachable s → Reachable (forkWorker s now).1
  | exitStep (s : MainState) (w : Worker) (adapter : AdapterName)
      (code : Option Int) (signal : Option String) (now : Nat) :
      Reachable s → w ∈ s.pool →
      Reachable (handleWorkerExit s w adapter code signal now).1

/-! ### Dispatch (`go`, index.ts lines 106-162) -/

/-- The load-balance policy (`loadBalanceMethod`). -/
inductive LBMethod where
  | roundRobin
  | leastTime
deriving DecidableEq, Repr

/-- Frozen dispatch configuration set by `go.start`. -/
structure GoConfig where
  method : LBMethod
  maxWorkers : Nat
deriving DecidableEq, Repr

/-- Insert a worker into a list already sorted by `lastTick` descending,
before the first element whose `lastTick` does not exceed it.  Together
with `orderByTickDesc` this is the stable descending sort performed by
`orderBy(pool, lastTick, "desc")` (index.ts line 123): elements are ordered
by `lastTick` descending, ties keep their pool order. -/
def insertTickDesc (w : Worker) : List Worker → List Worker
  | [] => [w]
  | x :: xs =>
    if x.lastTick ≤ w.lastTick then w :: x :: xs
    else x :: insertTickDesc w xs

/-- Stable sort of the pool by `lastTick` descending, modelling
`orderBy(pool, lastTick, "desc")`. -/
def orderByTickDesc : List Worker → List Worker
  | [] => []
  | x :: xs => insertTickDesc x (orderByTickDesc xs)

/-- Worker selection in `go` (index.ts lines 121-126):
`if (loadBalanceMethod === "least-time" || pool.length < maxWorkers)` take
the most recently responsive worker (`orderBy(pool, lastTick, "desc")[0]`),
otherwise take `pool[uid % pool.length]`.  `none` models the selected slot
being `undefined` (empty pool). -/
def chooseWorker (method : LBMethod) (maxWorkers : Nat) (pool : List Worker)
    (uid : Nat) : Option Worker :=
  if method = LBMethod.leastTime ∨ pool.length < maxWorkers then
    (orderByTickDesc pool).head?
  else
    pool.get? (uid % pool.length)

/-- Result of dispatching one `go` call: the state after any scale-up fork,
the worker that receives the Call Request, and whether that worker was
freshly forked by this call. -/
structure DispatchResult where
  state : MainState
  recipient : Worker
  forkedNew : Bool
deriving DecidableEq, Repr

/-- The dispatch portion of `go` (index.ts lines 117-161) for a non-empty
pool: select a worker; if the slot is `undefined`, or the pool is below
`maxWorkers` and the selected worker's `lastTick` is at least 1000 ms old
(`Date.now() - worker[lastTick] >= 1000`), fork a new worker and use it for
this call.  Finally record the pending call in `tasks` and send the Call
Request to the chosen worker. -/
def goDispatch (cfg : GoConfig) (s : MainState) (uid : Nat) (now : Nat) :
    DispatchResult :=
  match chooseWorker cfg.method cfg.maxWorkers s.pool uid with
  | none =>
    { state := { (forkWorker s now).1 with
                   tasks := (uid, (forkWorker s now).2.id)
                     :: (forkWorker s now).1.tasks }
      recipient := (forkWorker s now).2
      forkedNew := true }
  | some w =>
    if s.pool.length < cfg.maxWorkers ∧ 1000 ≤ now - w.lastTick then
      { state := { (forkWorker s now).1 with
                     tasks := (uid, (forkWorker s now).2.id)
                       :: (forkWorker s now).1.tasks }
        recipient := (forkWorker s now).2
        forkedNew := true }
    else
      { state := { s with tasks := (uid, w.id) :: s.tasks }
        recipient := w
        forkedNew := false }

/-! ### Empty-pool local fallback (`isGoroutineRunning`, lines 452-466) -/

/-- `isGoroutineRunning` (index.ts lines 452-466) on the main side, as a
function of the pool length and of the `noWorkerWarningEmitted` flag.
Returns `(running, warningEmittedNow, flagAfter)`: when the pool is empty
the function reports not-running and emits the advisory warning exactly
when the flag was not yet set, setting it. -/
def isGoroutineRunning (poolLen : Nat) (warned : Bool) : Bool × Bool × Bool :=
  if poolLen = 0 then (false, !warned, true) else (true, false, warned)

/-- The head of `go` (index.ts lines 113-115): when `isGoroutineRunning()`
is false the call returns `fn.apply(void 0, args)` computed locally on the
main side (`some` result); otherwise the call proceeds to dispatch
(`none`).  Also returns whether the advisory warning was emitted by this
call and the flag afterwards. -/
def goLocalStep {α β : Type} (pool : List Worker) (warned : Bool)
    (f : α → β) (args : α) : Option β × Bool × Bool :=
  if (isGoroutineRunning pool.length warned).1 then
    (none, (isGoroutineRunning pool.length warned).2.1,
      (isGoroutineRunning pool.length warned).2.2)
  else
    (some (f args), (isGoroutineRunning pool.length warned).2.1,
      (isGoroutineRunning pool.length warned).2.2)

/-- Total number of advisory warnings emitted by `n` consecutive `go` calls
all served while the pool is empty, starting from flag state `warned`. -/
def localWarnCount : Bool → Nat → Nat
  | _, 0 => 0
  | warned, n + 1 =>
    (if (isGoroutineRunning 0 warned).2.1 then 1 else 0)
      + localWarnCount (isGoroutineRunning 0 warned).2.2 n

/-! ### `go.start` (index.ts lines 192-246) -/

/-- The `workers` option: a single integer or a `[min, max]` pair.  JS
numbers may be zero or negative, hence `Int`. -/
inductive WorkersOpt where
  | single (n : Int)
  | pair (mn mx : Int)
deriving DecidableEq, Repr

/-- `dynamicWorkers ? workers[0] : workers`. -/
def minWorkersOf : WorkersOpt → Int
  | .single n => n
  | .pair mn _ => mn

/-- `dynamicWorkers ? workers[1] : workers`. -/
def maxWorkersOf : WorkersOpt → Int
  | .single n => n
  | .pair _ mx => mx

/-- `Array.isArray(workers)`. -/
def isDynamic : WorkersOpt → Bool
  | .single _ => false
  | .pair _ _ => true

/-- The options of `go.start` relevant to pool sizing and dispatch, with
the `workers` default (`cpus().length`) already applied. -/
structure StartOptions where
  workers : WorkersOpt
  method : Option LBMethod
deriving DecidableEq, Repr

/-- Failures of `go.start`. -/
inductive StartErr where
  | rangeError (msg : String)
deriving DecidableEq, Repr

/-- Fork `n` workers into the state (the `Promise.all(new
Array(minWorkers).fill(void 0).map(() => forkWorker(...)))` of `go.start`). -/
def forkN (s : MainState) : Nat → Nat → MainState
  | 0, _ => s
  | n + 1, now => forkN (forkWorker s now).1 n now

/-- `go.start` (index.ts lines 192-246), state/config part: reject with a
`RangeError` when the minimum worker count is below 1; otherwise freeze
`maxWorkers` and the load-balance method (explicit `method` option, else
`least-time` for a dynamic pool and `round-robin` for a fixed one) and fork
`minWorkers` workers.  Entry-file resolution and adapter selection are not
modelled (they do not affect pool sizing). -/
def start (s : MainState) (opts : StartOptions) (now : Nat) :
    Except StartErr (GoConfig × MainState) :=
  let minW := minWorkersOf opts.workers
  if minW < 1 then
    Except.error (StartErr.rangeError "Worker numbers must not be smaller than 1")
  else
    Except.ok
      ({ method := opts.method.getD
            (if isDynamic opts.workers then LBMethod.leastTime
             else LBMethod.roundRobin)
         maxWorkers := (maxWorkersOf opts.workers).toNat },
       forkN s minW.toNat now)

/-! ### JS values and the value codec

The codec (`compose`/`decompose`) lives in the external dependency
`@hyurl/structured-clone`; only its call sites are under `src/`.  The
definitions below are therefore modelled from the spec (§4.2): the
permitted value set, the transport-neutral tagged encoding, and the
decoding.  Finite JS numbers are modelled as integers, which suffices for
the kind-tags and the special numerics the claims are about. -/

/-- A JS number: a finite value, `NaN`, `+Infinity` or `-Infinity`. -/
inductive JNum where
  | finite (i : Int)
  | nan
  | posInf
  | negInf
deriving DecidableEq, Repr

/-- The typed-array kinds. -/
inductive TAKind where
  | int8 | uint8 | uint8Clamped | int16 | uint16
  | int32 | uint32 | float32 | float64 | bigInt64 | bigUint64
deriving DecidableEq, Repr

mutual
/-- Modelled from the spec: the permitted value set of the codec (§4.2) —
primitives except symbols, `Date`, `RegExp`, `ArrayBuffer`, typed arrays,
`Array`, plain `Object` (own enumerable properties), `Map`, `Set`, `Error`
(name and message). -/
inductive JVal where
  | null
  | undef
  | bool (b : Bool)
  | num (n : JNum)
  | str (s : String)
  | bigint (i : Int)
  | date (time : Int)
  | regexp (pattern flags : String)
  | arrayBuffer (bytes : List Nat)
  | typedArray (kind : TAKind) (data : List Int)
  | arr (items : JList)
  | obj (fields : JFields)
  | map (entries : JPairs)
  | set (items : JList)
  | error (name message : String)
deriving DecidableEq, Repr
/-- A JS array's element list. -/
inductive JList where
  | nil
  | cons (head : JVal) (tail : JList)
/-- A plain object's own enumerable string-keyed fields, in insertion
order. -/
inductive JFields where
  | nil
  | cons (key : String) (val : JVal) (tail : JFields)
/-- A `Map`'s entries in insertion order. -/
inductive JPairs where
  | nil
  | cons (key val : JVal) (tail : JPairs)
end

mutual
/-- Modelled from the spec: a node of the transport-neutral wire form the
codec produces — only booleans, integers, strings and tagged sequences. -/
inductive Wire where
  | wbool (b : Bool)
  | wint (i : Int)
  | wstr (s : String)
  | wtag (tag : Nat) (payload : WList)
/-- A sequence of wire nodes. -/
inductive WList where
  | nil
  | cons (head : Wire) (tail : WList)
end

/-- Number of elements of a `JList`. -/
def JList.length : JList → Nat
  | .nil => 0
  | .cons _ t => t.length + 1

/-- Element access on a `JList`. -/
def JList.get? : JList → Nat → Option JVal
  | .nil, _ => none
  | .cons h _, 0 => some h
  | .cons _ t, n + 1 => t.get? n

/-- A `JList` as a Lean list. -/
def JList.toList : JList → List JVal
  | .nil => []
  | .cons h t => h :: t.toList

/-- `msg[n]` in JS: the element, or `undefined` past the end. -/
def jget (xs : JList) (n : Nat) : JVal := (xs.get? n).getD JVal.undef

/-- Encode a byte list on the wire. -/
def natsToW : List Nat → WList
  | [] => .nil
  | b :: bs => .cons (.wint (Int.ofNat b)) (natsToW bs)

/-- Decode a byte list from the wire. -/
def wToNats : WList → Option (List Nat)
  | .nil => some []
  | .cons (.wint (Int.ofNat b)) r => (wToNats r).map (b :: ·)
  | _ => none

/-- Encode an integer list on the wire. -/
def intsToW : List Int → WList
  | [] => .nil
  | i :: is => .cons (.wint i) (intsToW is)

/-- Decode an integer list from the wire. -/
def wToInts : WList → Option (List Int)
  | .nil => some []
  | .cons (.wint i) r => (wToInts r).map (i :: ·)
  | _ => none

/-- Numeric code of a typed-array kind on the wire. -/
def kindCode : TAKind → Nat
  | .int8 => 0 | .uint8 => 1 | .uint8Clamped => 2 | .int16 => 3
  | .uint16 => 4 | .int32 => 5 | .uint32 => 6 | .float32 => 7
  | .float64 => 8 | .bigInt64 => 9 | .bigUint64 => 10

/-- Typed-array kind from its wire code. -/
def kindOfCode : Nat → Option TAKind
  | 0 => some .int8 | 1 => some .uint8 | 2 => some .uint8Clamped
  | 3 => some .int16 | 4 => some .uint16 | 5 => some .int32
  | 6 => some .uint32 | 7 => some .float32 | 8 => some .float64
  | 9 => some .bigInt64 | 10 => some .bigUint64 | _ => none

mutual
/-- Modelled from the spec: `compose(v)` of `@hyurl/structured-clone` —
encode a permitted value into the transport-neutral tagged form, preserving
the type tag (`Date`, `RegExp`, typed-array kind, `Error` name) and the
special numerics. -/
def compose : JVal → Wire
  | .null => .wtag 0 .nil
  | .undef => .wtag 1 .nil
  | .bool b => .wtag 2 (.cons (.wbool b) .nil)
  | .num (.finite i) => .wtag 3 (.cons (.wint i) .nil)
  | .num .nan => .wtag 4 .nil
  | .num .posInf => .wtag 5 .nil
  | .num .negInf => .wtag 6 .nil
  | .str s => .wtag 7 (.cons (.wstr s) .nil)
  | .bigint i => .wtag 8 (.cons (.wint i) .nil)
  | .date t => .wtag 9 (.cons (.wint t) .nil)
  | .regexp p f => .wtag 10 (.cons (.wstr p) (.cons (.wstr f) .nil))
  | .arrayBuffer bs => .wtag 11 (natsToW bs)
  | .typedArray k d =>
      .wtag 12 (.cons (.wint (Int.ofNat (kindCode k))) (intsToW d))
  | .arr xs => .wtag 13 (composeList xs)
  | .obj fs => .wtag 14 (composeFields fs)
  | .map es => .wtag 15 (composePairs es)
  | .set xs => .wtag 16 (composeList xs)
  | .error n m => .wtag 17 (.cons (.wstr n) (.cons (.wstr m) .nil))
/-- Encode an array's elements. -/
def composeList : JList → WList
  | .nil => .nil
  | .cons v r => .cons (compose v) (composeList r)
/-- Encode an object's fields. -/
def composeFields : JFields → WList
  | .nil => .nil
  | .cons k v r => .cons (.wstr k) (.cons (compose v) (composeFields r))
/-- Encode a map's entries. -/
def composePairs : JPairs → WList
  | .nil => .nil
  | .cons k v r => .cons (compose k) (.cons (compose v) (composePairs r))
end

mutual
/-- Modelled from the spec: `decompose(w)` of `@hyurl/structured-clone` —
decode the transport-neutral tagged form back into a value; `none` on a
malformed wire tree. -/
def decompose : Wire → Option JVal
  | .wtag 0 .nil => some .null
  | .wtag 1 .nil => some .undef
  | .wtag 2 (.cons (.wbool b) .nil) => some (.bool b)
  | .wtag 3 (.cons (.wint i) .nil) => some (.num (.finite i))
  | .wtag 4 .nil => some (.num .nan)
  | .wtag 5 .nil => some (.num .posInf)
  | .wtag 6 .nil => some (.num .negInf)
  | .wtag 7 (.cons (.wstr s) .nil) => some (.str s)
  | .wtag 8 (.cons (.wint i) .nil) => some (.bigint i)
  | .wtag 9 (.cons (.wint t) .nil) => some (.date t)
  | .wtag 10 (.cons (.wstr p) (.cons (.wstr f) .nil)) => some (.regexp p f)
  | .wtag 11 ws => (wToNats ws).map JVal.arrayBuffer
  | .wtag 12 (.cons (.wint (Int.ofNat c)) ws) =>
      match kindOfCode c, wToInts ws with
      | some k, some d => some (.typedArray k d)
      | _, _ => none
  | .wtag 13 ws => (decomposeList ws).map JVal.arr
  | .wtag 14 ws => (decomposeFields ws).map JVal.obj
  | .wtag 15 ws => (decomposePairs ws).map JVal.map
  | .wtag 16 ws => (decomposeList ws).map JVal.set
  | .wtag 17 (.cons (.wstr n) (.cons (.wstr m) .nil)) => some (.error n m)
  | _ => none
/-- Decode an array's elements. -/
def decomposeList : WList → Option JList
  | .nil => some .nil
  | .cons w r =>
    match decompose w, decomposeList r with
    | some v, some vs => some (.cons v vs)
    | _, _ => none
/-- Decode an object's fields. -/
def decomposeFields : WList → Option JFields
  | .nil => some .nil
  | .cons (.wstr k) (.cons w r) =>
    match decompose w, decomposeFields r with
    | some v, some fs => some (.cons k v fs)
    | _, _ => none
  | _ => none
/-- Decode a map's entries. -/
def decomposePairs : WList → Option JPairs
  | .nil => some .nil
  | .cons kw (.cons vw r) =>
    match decompose kw, decompose vw, decomposePairs r with
    | some k, some v, some ps => some (.cons k v ps)
    | _, _, _ => none
  | _ => none
end

/-! ### Registry, signature hash, and the worker-side handlers
(index.ts lines 319-380, 419-432, 493-500) -/

/-- Modelled from the spec: the 32-bit signature hash of a function's
source text (the `string-hash` dependency; only its call sites are under
`src/`).  Characters are folded from the end of the string; each step
multiplies by 33, xors in the character code, and truncates to 32 bits. -/
def strHash (s : String) : Nat :=
  s.data.foldr (fun c h => (Nat.xor (h * 33) c.toNat) % 4294967296) 5381

/-- A registry entry: the function's source text (from which the signature
is computed) together with its behaviour — on a decoded argument list it
either returns a value (`Except.ok`) or throws one (`Except.error`). -/
structure RegFn where
  source : String
  impl : List JVal → Except JVal JVal

/-- The exact error message thrown by `handleCallRequest` when the registry
lookup fails (index.ts lines 357-362). -/
def registryMalformedMsg : String :=
  "Goroutine registry malformed, function call cannot be performed"

/-- The error value `new Error(registryMalformedMsg)`. -/
def registryMalformedErr : JVal := JVal.error "Error" registryMalformedMsg

/-- `registry[target]` for a non-string `target` (index.ts line 351): only
a finite non-negative integer number that is in range hits an entry; any
other value (negative, fractional modelled as absent, `NaN`, infinities,
booleans, objects, ...) indexes to `undefined`. -/
def regLookup (registry : List RegFn) (target : JVal) : Option RegFn :=
  match target with
  | .num (.finite (Int.ofNat i)) => registry.get? i
  | _ => none

/-- `[uid, null, result]` — a successful Call Response. -/
def mkOkResponse (uid result : JVal) : JVal :=
  .arr (.cons uid (.cons .null (.cons result .nil)))

/-- `[uid, err, null]` — a failed Call Response. -/
def mkErrResponse (uid err : JVal) : JVal :=
  .arr (.cons uid (.cons err (.cons .null .nil)))

/-- `handleCallRequest` (index.ts lines 331-380), producing the Call
Response that is sent back.  `evalFn` models `runInThisContext` /
`eval` on a source string: it yields either a thrown value or a callable.
For an integer `target`, `registry[target]` is looked up and the request's
`sig` field is compared with the hash of the entry's source
(`!fn || signature !== hash(String(fn))`); on mismatch the fixed
registry-malformed error is thrown and shipped in the response.  The codec
steps (`decompose` of `args`, `compose` of the outcome) operate on decoded
values here; their faithfulness is the round-trip theorem. -/
def handleCallRequest (registry : List RegFn)
    (evalFn : String → Except JVal (List JVal → Except JVal JVal))
    (uid target sig : JVal) (args : List JVal) : JVal :=
  match target with
  | .str code =>
    match evalFn code with
    | .error e => mkErrResponse uid e
    | .ok f =>
      match f args with
      | .ok v => mkOkResponse uid v
      | .error e => mkErrResponse uid e
  | _ =>
    match regLookup registry target with
    | none => mkErrResponse uid registryMalformedErr
    | some fn =>
      if sig ≠ JVal.num (.finite (Int.ofNat (strHash fn.source))) then
        mkErrResponse uid registryMalformedErr
      else
        match fn.impl args with
        | .ok v => mkOkResponse uid v
        | .error e => mkErrResponse uid e

/-- Worker-side mutable state: the worker's own pending-call table
(`tasks`), keyed by uid, used when the worker itself sends Call Requests to
the parent (`go.workers()` from a worker). -/
structure WorkerState where
  tasks : List JNum
deriving DecidableEq, Repr

/-- `handleCallResponse` (index.ts lines 319-329): look the uid up in
`tasks`; if present, delete it and settle the promise (settling is local,
no message is sent). -/
def handleCallResponse (st : WorkerState) (uid : JNum) : WorkerState :=
  { tasks := st.tasks.erase uid }

/-- `typeof v === "object"` in JS: true for `null` and every
non-primitive. -/
def typeofIsObject : JVal → Bool
  | .null => true
  | .undef => false
  | .bool _ => false
  | .num _ => false
  | .str _ => false
  | .bigint _ => false
  | _ => true

/-- `typeof v === "number"`. -/
def typeofIsNumber : JVal → Bool
  | .num _ => true
  | _ => false

/-- `Array.isArray(v)` (typed arrays are not arrays). -/
def isJsArray : JVal → Bool
  | .arr _ => true
  | _ => false

/-- `isCallRequest` (index.ts lines 419-425): an array of length 4 whose
positions 0 and 2 are numbers and whose position 3 is an array. -/
def isCallRequest (m : JVal) : Bool :=
  match m with
  | .arr xs =>
    xs.length == 4 && typeofIsNumber (jget xs 0)
      && typeofIsNumber (jget xs 2) && isJsArray (jget xs 3)
  | _ => false

/-- `isCallResponse` (index.ts lines 427-432): an array of length 3 whose
position 0 is a number and whose position 1 is an object or `null`. -/
def isCallResponse (m : JVal) : Bool :=
  match m with
  | .arr xs =>
    xs.length == 3 && typeofIsNumber (jget xs 0)
      && typeofIsObject (jget xs 1)
  | _ => false

/-- The Call Request branch of the worker-side message handler: extract
`[uid, target, sig, args]` from the message and ship the one Call Response
`handleCallRequest` produces. -/
def onCallRequestMsg (registry : List RegFn)
    (evalFn : String → Except JVal (List JVal → Except JVal JVal))
    (st : WorkerState) (m : JVal) : WorkerState × List JVal :=
  match m with
  | .arr xs =>
    (st, [handleCallRequest registry evalFn (jget xs 0) (jget xs 1)
            (jget xs 2)
            (match jget xs 3 with
             | .arr as => as.toList
             | _ => [])])
  | _ => (st, [])

/-- The Call Response branch of the worker-side message handler: settle
the pending call with the message's uid; nothing is sent. -/
def onCallResponseMsg (st : WorkerState) (m : JVal) :
    WorkerState × List JVal :=
  match m with
  | .arr xs =>
    match jget xs 0 with
    | .num u => (handleCallResponse st u, [])
    | _ => (st, [])
  | _ => (st, [])

/-- The worker-side `port.on("message", ...)` handler (index.ts lines
493-500): handle a Call Request (sending back one Call Response), else
handle a Call Response (settling a local pending call), else do nothing.
Returns the state afterwards and the list of messages sent. -/
def onMessage (registry : List RegFn)
    (evalFn : String → Except JVal (List JVal → Except JVal JVal))
    (st : WorkerState) (m : JVal) : WorkerState × List JVal :=
  if isCallRequest m then onCallRequestMsg registry evalFn st m
  else if isCallResponse m then onCallResponseMsg st m
  else (st, [])

/-! ### Theorems: codec round-trip -/

theorem wToNats_natsToW : ∀ bs : List Nat, wToNats (natsToW bs) = some bs
  | [] => rfl
  | b :: bs => by simp [natsToW, wToNats, wToNats_natsToW bs]

theorem wToInts_intsToW : ∀ is : List Int, wToInts (intsToW is) = some is
  | [] => rfl
  | i :: is => by simp [intsToW, wToInts, wToInts_intsToW is]

theorem kindOfCode_kindCode : ∀ k : TAKind, kindOfCode (kindCode k) = some k := by
  intro k
  cases k <;> rfl

mutual
theorem decompose_compose : ∀ v : JVal, decompose (compose v) = some v
  | .null => rfl
  | .undef => rfl
  | .bool _ => rfl
  | .num (.finite _) => rfl
  | .num .nan => rfl
  | .num .posInf => rfl
  | .num .negInf => rfl
  | .str _ => rfl
  | .bigint _ => rfl
  | .date _ => rfl
  | .regexp _ _ => rfl
  | .arrayBuffer bs => by
      rw [show decompose (compose (.arrayBuffer bs))
            = (wToNats (natsToW bs)).map JVal.arrayBuffer from rfl,
        wToNats_natsToW]
      rfl
  | .typedArray k d => by
      rw [show decompose (compose (.typedArray k d))
            = (match kindOfCode (kindCode k), wToInts (intsToW d) with
               | some k2, some d2 => some (JVal.typedArray k2 d2)
               | _, _ => none) from rfl,
        kindOfCode_kindCode, wToInts_intsToW]
  | .arr xs => by
      rw [show decompose (compose (.arr xs))
            = (decomposeList (composeList xs)).map JVal.arr from rfl,
        decomposeList_composeList xs]
      rfl
  | .obj fs => by
      rw [show decompose (compose (.obj fs))
            = (decomposeFields (composeFields fs)).map JVal.obj from rfl,
        decomposeFields_composeFields fs]
      rfl
  | .map es => by
      rw [show decompose (compose (.map es))
            = (decomposePairs (composePairs es)).map JVal.map from rfl,
        decomposePairs_composePairs es]
      rfl
  | .set xs => by
      rw [show decompose (compose (.set xs))
            = (decomposeList (composeList xs)).map JVal.set from rfl,
        decomposeList_composeList xs]
      rfl
  | .error _ _ => rfl
theorem decomposeList_composeList : ∀ xs : JList,
    decomposeList (composeList xs) = some xs
  | .nil => rfl
  | .cons v r => by
      rw [show decomposeList (composeList (.cons v r))
            = (match decompose (compose v), decomposeList (composeList r) with
               | some v2, some vs => some (JList.cons v2 vs)
               | _, _ => none) from rfl,
        decompose_compose v, decomposeList_composeList r]
theorem decomposeFields_composeFields : ∀ fs : JFields,
    decomposeFields (composeFields fs) = some fs
  | .nil => rfl
  | .cons k v r => by
      rw [show decomposeFields (composeFields (.cons k v r))
            = (match decompose (compose v), decomposeFields (composeFields r) with
               | some v2, some fs2 => some (JFields.cons k v2 fs2)
               | _, _ => none) from rfl,
        decompose_compose v, decomposeFields_composeFields r]
theorem decomposePairs_composePairs : ∀ es : JPairs,
    decomposePairs (composePairs es) = some es
  | .nil => rfl
  | .cons k v r => by
      rw [show decomposePairs (composePairs (.cons k v r))
            = (match decompose (compose k), decompose (compose v),
                     decomposePairs (composePairs r) with
               | some k2, some v2, some ps => some (JPairs.cons k2 v2 ps)
               | _, _, _ => none) from rfl,
        decompose_compose k, decompose_compose v, decomposePairs_composePairs r]
end

/-- Claim C8: for every value in the permitted set (which, being an
inductive type, contains no cycles), decoding the encoding yields the value
back exactly — structure, Date/RegExp/typed-array kind and Error name tags,
and the special numerics `NaN`, `+Infinity`, `-Infinity` all preserved. -/
theorem codec_roundtrip : ∀ v : JVal, decompose (compose v) = some v :=
  decompose_compose

/-! ### Theorems: dispatcher selection -/

theorem length_insertTickDesc (w : Worker) :
    ∀ l : List Worker, (insertTickDesc w l).length = l.length + 1
  | [] => rfl
  | x :: xs => by
      rw [insertTickDesc]
      split
      · rfl
      · show (insertTickDesc w xs).length + 1 = xs.length + 1 + 1
        rw [length_insertTickDesc w xs]

theorem length_orderByTickDesc :
    ∀ l : List Worker, (orderByTickDesc l).length = l.length
  | [] => rfl
  | x :: xs => by
      rw [orderByTickDesc, length_insertTickDesc, length_orderByTickDesc xs]
      rfl

theorem mem_orderByTickDesc_of_head (l : List Worker) (hd : Worker)
    (h : (orderByTickDesc l).head? = some hd) :
    hd ∈ l ∧ ∀ w ∈ l, w.lastTick ≤ hd.lastTick := by
  induction l generalizing hd with
  | nil => simp [orderByTickDesc] at h
  | cons x xs ih =>
    rw [orderByTickDesc] at h
    cases hs : orderByTickDesc xs with
    | nil =>
      rw [hs] at h
      simp [insertTickDesc] at h
      have hxs : xs = [] := by
        have := length_orderByTickDesc xs
        rw [hs] at this
        exact List.length_eq_zero.mp this.symm
      subst hxs
      subst h
      simp
    | cons y ys =>
      have hy := ih y (by simp [hs])
      rw [hs, insertTickDesc] at h
      by_cases hc : y.lastTick ≤ x.lastTick
      · rw [if_pos hc] at h
        simp at h
        subst h
        refine ⟨by simp, ?_⟩
        intro w hw
        rcases List.mem_cons.mp hw with hw | hw
        · subst hw; exact le_refl _
        · exact le_trans (hy.2 w hw) hc
      · rw [if_neg hc] at h
        simp at h
        subst h
        refine ⟨List.mem_cons_of_mem x hy.1, ?_⟩
        intro w hw
        rcases List.mem_cons.mp hw with hw | hw
        · subst hw; omega
        · exact hy.2 w hw

/-- Claim C2: while the pool is non-empty, the dispatcher picks
`pool[uid % pool.length]` exactly when the policy is round-robin and the
pool has reached `maxWorkers`; in every other case (least-time policy, or a
pool still below maximum) it picks a worker whose `lastTick` is largest. -/
theorem dispatch_policy_choice :
    ∀ (method : LBMethod) (maxW : Nat) (pool : List Worker) (uid : Nat),
    pool ≠ [] →
    chooseWorker method maxW pool uid ≠ none
    ∧ (method = LBMethod.roundRobin → maxW ≤ pool.length →
        chooseWorker method maxW pool uid = pool.get? (uid % pool.length))
    ∧ ((method = LBMethod.leastTime ∨ pool.length < maxW) →
        ∀ w, chooseWorker method maxW pool uid = some w →
          w ∈ pool ∧ ∀ x ∈ pool, x.lastTick ≤ w.lastTick) := by
  intro method maxW pool uid hne
  have hlen : 0 < pool.length := List.length_pos.mpr hne
  refine ⟨?_, ?_, ?_⟩
  · rw [chooseWorker]
    split
    · have : (orderByTickDesc pool).length = pool.length :=
        length_orderByTickDesc pool
      cases hs : orderByTickDesc pool with
      | nil => rw [hs] at this; simp at this; omega
      | cons y ys => simp
    · have hmod : uid % pool.length < pool.length := Nat.mod_lt _ hlen
      rw [List.get?_eq_get hmod]
      simp
  · intro hm hge
    rw [chooseWorker, if_neg]
    push_neg
    constructor
    · rw [hm]; intro hcontra; cases hcontra
    · omega
  · intro hcond w hw
    rw [chooseWorker, if_pos hcond] at hw
    exact mem_orderByTickDesc_of_head pool w hw

/-- Witness for C2 at a concrete pool: with the least-time policy the head
of the descending tick order is selected, a member with maximal
`lastTick`. -/
theorem dispatch_policy_choice_witness :
    (Worker.mk 1 7 ∈ [Worker.mk 0 5, Worker.mk 1 7]
      ∧ ∀ x ∈ [Worker.mk 0 5, Worker.mk 1 7],
          x.lastTick ≤ (Worker.mk 1 7).lastTick)
    ∧ chooseWorker LBMethod.leastTime 4 [Worker.mk 0 5, Worker.mk 1 7] 9
        ≠ none :=
  ⟨(dispatch_policy_choice LBMethod.leastTime 4
      [Worker.mk 0 5, Worker.mk 1 7] 9 (by decide)).2.2
      (Or.inl rfl) (Worker.mk 1 7) (by decide),
   (dispatch_policy_choice LBMethod.leastTime 4
      [Worker.mk 0 5, Worker.mk 1 7] 9 (by decide)).1⟩

/-! ### Theorems: pool removal and the pool invariant -/

theorem poolIndexOf_neg_iff (w : Worker) :
    ∀ l : List Worker, poolIndexOf l w < 0 ↔ w ∉ l := by
  intro l
  induction l with
  | nil => simp [poolIndexOf]
  | cons x xs ih =>
    rw [poolIndexOf]
    by_cases hx : x = w
    · subst hx
      simp
    · rw [if_neg hx]
      simp only [List.mem_cons, not_or]
      by_cases hr : poolIndexOf xs w < 0
      · rw [if_pos hr]
        constructor
        · intro _
          exact ⟨fun h => hx h.symm, ih.mp hr⟩
        · intro _
          omega
      · rw [if_neg hr]
        constructor
        · intro hcontra
          omega
        · rintro ⟨_, h2⟩
          exact absurd (ih.mpr h2) hr

theorem not_mem_spliceRemove (w : Worker) :
    ∀ l : List Worker, l.Nodup → w ∈ l → w ∉ spliceRemove l w := by
  intro l
  induction l with
  | nil => intro _ h; cases h
  | cons x xs ih =>
    intro hnd hm
    by_cases hx : x = w
    · have hidx : poolIndexOf (x :: xs) w = 0 := by
        rw [poolIndexOf, if_pos hx]
      rw [spliceRemove, hidx]
      rw [if_neg (by omega : ¬ ((0 : Int) < 0))]
      show w ∉ (x :: xs).eraseIdx (0 : Int).toNat
      rw [show ((0 : Int).toNat) = 0 from rfl, List.eraseIdx_cons_zero]
      intro hcontra
      exact (List.nodup_cons.mp hnd).1 (hx ▸ hcontra)
    · have hmxs : w ∈ xs := by
        rcases List.mem_cons.mp hm with h | h
        · exact absurd h.symm hx
        · exact h
      have hge : ¬ poolIndexOf xs w < 0 := by
        rw [poolIndexOf_neg_iff]
        simp [hmxs]
      have hidx : poolIndexOf (x :: xs) w = poolIndexOf xs w + 1 := by
        rw [poolIndexOf, if_neg hx, if_neg hge]
      rw [spliceRemove, hidx]
      rw [if_neg (by omega : ¬ (poolIndexOf xs w + 1 < 0))]
      have htn : (poolIndexOf xs w + 1).toNat = (poolIndexOf xs w).toNat + 1 := by
        omega
      rw [htn, List.eraseIdx_cons_succ]
      intro hcontra
      rcases List.mem_cons.mp hcontra with h | h
      · exact hx h.symm
      · have hI := ih (List.nodup_cons.mp hnd).2 hmxs
        rw [spliceRemove, if_neg hge] at hI
        exact hI h

theorem spliceRemove_sublist (l : List Worker) (w : Worker) :
    List.Sublist (spliceRemove l w) l := by
  rw [spliceRemove]
  split
  · exact List.dropLast_sublist l
  · exact List.eraseIdx_sublist l _

theorem poolWF_fork (s : MainState) (now : Nat) :
    PoolWF s → PoolWF (forkWorker s now).1 := by
  rintro ⟨h1, h2⟩
  constructor
  · rw [forkWorker]
    simp only [List.map_append, List.map_cons, List.map_nil]
    rw [List.nodup_append]
    refine ⟨h1, List.nodup_singleton _, ?_⟩
    intro a ha
    simp only [List.mem_singleton]
    intro hcontra
    rcases List.mem_map.mp ha with ⟨x, hx, hid⟩
    have := h2 x hx
    omega
  · rw [forkWorker]
    intro w hw
    simp only [List.mem_append, List.mem_singleton] at hw
    rcases hw with hw | hw
    · have := h2 w hw; simp; omega
    · subst hw; simp

theorem handleWorkerExit_pool (s : MainState) (w : Worker)
    (adapter : AdapterName) (code : Option Int) (signal : Option String)
    (now : Nat) :
    (handleWorkerExit s w adapter code signal now).1.pool
      = (if isNormalExit adapter code signal then spliceRemove s.pool w
         else spliceRemove s.pool w ++ [Worker.mk s.nextId now]) := by
  rw [handleWorkerExit]
  split
  · rfl
  · rfl

theorem handleWorkerExit_nextId (s : MainState) (w : Worker)
    (adapter : AdapterName) (code : Option Int) (signal : Option String)
    (now : Nat) :
    s.nextId ≤ (handleWorkerExit s w adapter code signal now).1.nextId := by
  rw [handleWorkerExit]
  split
  · exact le_refl _
  · simp [forkWorker]

theorem poolWF_exit (s : MainState) (w : Worker) (adapter : AdapterName)
    (code : Option Int) (signal : Option String) (now : Nat) :
    PoolWF s → PoolWF (handleWorkerExit s w adapter code signal now).1 := by
  rintro ⟨h1, h2⟩
  have hsub : List.Sublist (spliceRemove s.pool w) s.pool :=
    spliceRemove_sublist s.pool w
  have h1' : ((spliceRemove s.pool w).map Worker.id).Nodup :=
    h1.sublist (hsub.map Worker.id)
  have h2' : ∀ x ∈ spliceRemove s.pool w, x.id < s.nextId :=
    fun x hx => h2 x (hsub.subset hx)
  have hwf' : PoolWF ⟨spliceRemove s.pool w, s.nextId, s.tasks⟩ := ⟨h1', h2'⟩
  rw [handleWorkerExit]
  split
  · exact hwf'
  · exact poolWF_fork ⟨spliceRemove s.pool w, s.nextId, s.tasks⟩ now hwf'

theorem reachable_poolWF : ∀ s : MainState, Reachable s → PoolWF s := by
  intro s h
  induction h with
  | init => exact ⟨List.nodup_nil, by intro w hw; cases hw⟩
  | fork s now _ ih => exact poolWF_fork s now ih
  | exitStep s w adapter code signal now _ _ ih =>
      exact poolWF_exit s w adapter code signal now ih

theorem not_mem_exit_pool (s : MainState) (w : Worker) (adapter : AdapterName)
    (code : Option Int) (signal : Option String) (now : Nat)
    (hwf : PoolWF s) (hm : w ∈ s.pool) :
    w ∉ (handleWorkerExit s w adapter code signal now).1.pool := by
  have hnd : s.pool.Nodup := hwf.1.of_map
  have hnot := not_mem_spliceRemove w s.pool hnd hm
  have hid : w.id < s.nextId := hwf.2 w hm
  rw [handleWorkerExit_pool]
  split
  · exact hnot
  · intro hcontra
    rcases List.mem_append.mp hcontra with h | h
    · exact hnot h
    · rcases List.mem_singleton.mp h with rfl
      simp at hid

/-- Claim C10: in every main-side state reachable through `forkWorker` and
worker-exit handling, each worker handle occurs at most once in the pool;
immediately after a worker's exit event the worker is no longer a pool
member; and the main-side `workers()` count equals the number of distinct
live workers. -/
theorem pool_membership_invariant :
    ∀ s : MainState, Reachable s →
    s.pool.Nodup
    ∧ workersCount s = s.pool.toFinset.card
    ∧ ∀ (w : Worker) (adapter : AdapterName) (code : Option Int)
        (signal : Option String) (now : Nat), w ∈ s.pool →
        w ∉ (handleWorkerExit s w adapter code signal now).1.pool := by
  intro s h
  have hwf := reachable_poolWF s h
  have hnd : s.pool.Nodup := hwf.1.of_map
  refine ⟨hnd, ?_, ?_⟩
  · rw [workersCount, List.toFinset_card_of_nodup hnd]
  · intro w adapter code signal now hm
    exact not_mem_exit_pool s w adapter code signal now hwf hm

/-- Witness for C10: after one fork from the initial state, the reachable
state `⟨[⟨0, 5⟩], 1, []⟩` satisfies the invariant, and the worker is gone
from the pool right after its own exit event. -/
theorem pool_membership_invariant_witness :
    Worker.mk 0 5 ∉ (handleWorkerExit ⟨[Worker.mk 0 5], 1, []⟩ (Worker.mk 0 5)
      AdapterName.worker_threads (some 0) none 7).1.pool :=
  (pool_membership_invariant _
      (Reachable.fork initState 5 Reachable.init)).2.2
    (Worker.mk 0 5) AdapterName.worker_threads (some 0) none 7 (by decide)

/-- Claim C5: on a worker's exit event the worker is removed from the pool,
and a replacement is forked exactly when the exit is not normal; an exit is
normal precisely when the adapter is `child_process` and the signal is
`SIGTERM`, or the adapter is `worker_threads` and the exit code is 1. -/
theorem exit_replacement_iff :
    ∀ (s : MainState) (w : Worker) (adapter : AdapterName)
      (code : Option Int) (signal : Option String) (now : Nat),
    w ∈ s.pool → PoolWF s →
    w ∉ (handleWorkerExit s w adapter code signal now).1.pool
    ∧ (handleWorkerExit s w adapter code signal now).1.pool
        = (if isNormalExit adapter code signal then spliceRemove s.pool w
           else spliceRemove s.pool w ++ [Worker.mk s.nextId now])
    ∧ (isNormalExit adapter code signal = true ↔
        ((adapter = AdapterName.child_process ∧ signal = some "SIGTERM")
          ∨ (adapter = AdapterName.worker_threads ∧ code = some 1))) := by
  intro s w adapter code signal now hm hwf
  refine ⟨not_mem_exit_pool s w adapter code signal now hwf hm,
    handleWorkerExit_pool s w adapter code signal now, ?_⟩
  rw [isNormalExit]
  constructor
  · intro h
    rcases Bool.or_eq_true_iff.mp h with h | h <;>
      rcases Bool.and_eq_true_iff.mp h with ⟨h1, h2⟩
    · exact Or.inl ⟨by exact decide_eq_true_eq.mp h1, by exact decide_eq_true_eq.mp h2⟩
    · exact Or.inr ⟨by exact decide_eq_true_eq.mp h1, by exact decide_eq_true_eq.mp h2⟩
  · rintro (⟨h1, h2⟩ | ⟨h1, h2⟩) <;> subst h1 <;> subst h2 <;> rfl

/-- Witness for C5 at a concrete input: a `child_process` worker killed by
`SIGTERM` exits normally, is removed, and no replacement appears. -/
theorem exit_replacement_iff_witness :
    Worker.mk 0 0 ∉ (handleWorkerExit ⟨[Worker.mk 0 0], 1, []⟩ (Worker.mk 0 0)
      AdapterName.child_process none (some "SIGTERM") 9).1.pool
    ∧ (handleWorkerExit ⟨[Worker.mk 0 0], 1, []⟩ (Worker.mk 0 0)
        AdapterName.child_process none (some "SIGTERM") 9).1.pool = [] :=
  ⟨(exit_replacement_iff ⟨[Worker.mk 0 0], 1, []⟩ (Worker.mk 0 0)
      AdapterName.child_process none (some "SIGTERM") 9
      (by decide) ⟨by decide, by decide⟩).1,
   by decide⟩

/-! ### Theorems: stale-worker scale-up, local fallback, start, exits -/

/-- Claim C3: if the initially chosen worker's `lastTick` is at least
1000 ms in the past and the pool is below `maxWorkers`, the call forks a
new worker, and that fresh worker — not the stale one — receives the Call
Request. -/
theorem stale_worker_scaleup :
    ∀ (cfg : GoConfig) (s : MainState) (uid now : Nat) (w : Worker),
    chooseWorker cfg.method cfg.maxWorkers s.pool uid = some w →
    s.pool.length < cfg.maxWorkers →
    1000 ≤ now - w.lastTick →
    (goDispatch cfg s uid now).forkedNew = true
    ∧ (goDispatch cfg s uid now).recipient = (forkWorker s now).2
    ∧ (w ∈ s.pool → PoolWF s → (goDispatch cfg s uid now).recipient ≠ w) := by
  intro cfg s uid now w hcw hlt hstale
  have hgd : goDispatch cfg s uid now =
      { state := { (forkWorker s now).1 with
                     tasks := (uid, (forkWorker s now).2.id)
                       :: (forkWorker s now).1.tasks }
        recipient := (forkWorker s now).2
        forkedNew := true } := by
    rw [goDispatch, hcw]
    exact if_pos ⟨hlt, hstale⟩
  refine ⟨by simp [hgd], by simp [hgd], ?_⟩
  intro hmem hwf heq
  have hid : w.id < s.nextId := hwf.2 w hmem
  rw [hgd] at heq
  have heq' : Worker.mk s.nextId now = w := heq
  rw [← heq'] at hid
  exact absurd hid (by simp)

/-- Witness for C3: a pool of one worker last responsive at time 0, a call
at time 5000 with room to grow — the call forks and uses the new worker. -/
theorem stale_worker_scaleup_witness :
    (goDispatch ⟨LBMethod.leastTime, 2⟩ ⟨[Worker.mk 0 0], 1, []⟩ 0 5000).forkedNew
      = true
    ∧ (goDispatch ⟨LBMethod.leastTime, 2⟩ ⟨[Worker.mk 0 0], 1, []⟩ 0 5000).recipient
        ≠ Worker.mk 0 0 :=
  ⟨(stale_worker_scaleup ⟨LBMethod.leastTime, 2⟩ ⟨[Worker.mk 0 0], 1, []⟩ 0 5000
      (Worker.mk 0 0) (by decide) (by decide) (by decide)).1,
   (stale_worker_scaleup ⟨LBMethod.leastTime, 2⟩ ⟨[Worker.mk 0 0], 1, []⟩ 0 5000
      (Worker.mk 0 0) (by decide) (by decide) (by decide)).2.2
     (by decide) ⟨by decide, by decide⟩⟩

/-- Unfolding of `handleCallRequest` on a numeric target. -/
theorem handleCallRequest_num (registry : List RegFn)
    (evalFn : String → Except JVal (List JVal → Except JVal JVal))
    (uid sig : JVal) (args : List JVal) (nn : JNum) :
    handleCallRequest registry evalFn uid (JVal.num nn) sig args
      = (match regLookup registry (JVal.num nn) with
         | none => mkErrResponse uid registryMalformedErr
         | some fn =>
           if sig ≠ JVal.num (.finite (Int.ofNat (strHash fn.source))) then
             mkErrResponse uid registryMalformedErr
           else
             match fn.impl args with
             | .ok v => mkOkResponse uid v
             | .error e => mkErrResponse uid e) := rfl

/-- Claim C1: for a Call Request whose target is a number, if the registry
has no entry at that index, or the request's `sig` differs from the 32-bit
hash of the entry's source text, the call fails with exactly the
registry-malformed error; when the entry exists and the hash matches, the
outcome is entirely that of the function itself and the registry-malformed
error is not raised. -/
theorem registry_mismatch_rejection :
    ∀ (registry : List RegFn)
      (evalFn : String → Except JVal (List JVal → Except JVal JVal))
      (uid sig : JVal) (args : List JVal) (nn : JNum),
    (regLookup registry (JVal.num nn) = none →
      handleCallRequest registry evalFn uid (JVal.num nn) sig args
        = mkErrResponse uid registryMalformedErr)
    ∧ (∀ fn, regLookup registry (JVal.num nn) = some fn →
        sig ≠ JVal.num (.finite (Int.ofNat (strHash fn.source))) →
        handleCallRequest registry evalFn uid (JVal.num nn) sig args
          = mkErrResponse uid registryMalformedErr)
    ∧ (∀ fn, regLookup registry (JVal.num nn) = some fn →
        sig = JVal.num (.finite (Int.ofNat (strHash fn.source))) →
        handleCallRequest registry evalFn uid (JVal.num nn) sig args
          = (match fn.impl args with
             | .ok v => mkOkResponse uid v
             | .error e => mkErrResponse uid e)) := by
  intro registry evalFn uid sig args nn
  refine ⟨?_, ?_, ?_⟩
  · intro h
    rw [handleCallRequest_num, h]
  · intro fn h hne
    rw [handleCallRequest_num, h]
    exact if_pos hne
  · intro fn h heq
    rw [handleCallRequest_num, h]
    exact if_neg (by simp [heq])

/-- Witness for C1: an empty registry rejects index 0 with the exact
malformed-registry error; a matching entry with the correct hash runs the
function. -/
theorem registry_mismatch_rejection_witness :
    handleCallRequest [] (fun _ => Except.error JVal.null) JVal.null
        (JVal.num (.finite 0)) JVal.null []
      = mkErrResponse JVal.null registryMalformedErr
    ∧ handleCallRequest [RegFn.mk "f" (fun _ => Except.ok JVal.null)]
        (fun _ => Except.error JVal.null) JVal.null (JVal.num (.finite 0))
        (JVal.num (.finite (Int.ofNat (strHash "f")))) []
      = mkOkResponse JVal.null JVal.null :=
  ⟨(registry_mismatch_rejection [] (fun _ => Except.error JVal.null)
      JVal.null JVal.null [] (.finite 0)).1 rfl,
   (registry_mismatch_rejection [RegFn.mk "f" (fun _ => Except.ok JVal.null)]
      (fun _ => Except.error JVal.null) JVal.null
      (JVal.num (.finite (Int.ofNat (strHash "f")))) [] (.finite 0)).2.2
     (RegFn.mk "f" (fun _ => Except.ok JVal.null)) rfl rfl⟩

/-- Claim C9: a message that matches neither the Call Request discriminator
nor the Call Response discriminator leaves the worker-side handler inert:
state unchanged, nothing sent, and (the handler being a total function) no
exception escapes. -/
theorem malformed_message_ignored :
    ∀ (registry : List RegFn)
      (evalFn : String → Except JVal (List JVal → Except JVal JVal))
      (st : WorkerState) (m : JVal),
    isCallRequest m = false → isCallResponse m = false →
    onMessage registry evalFn st m = (st, []) := by
  intro registry evalFn st m h1 h2
  rw [onMessage, h1, h2]
  rfl

/-- Witness for C9: the control token `"READY"` (a bare string) is silently
dropped by the worker-side handler. -/
theorem malformed_message_ignored_witness :
    onMessage [] (fun _ => Except.error JVal.null) ⟨[]⟩ (JVal.str "READY")
      = (⟨[]⟩, []) :=
  malformed_message_ignored [] (fun _ => Except.error JVal.null) ⟨[]⟩
    (JVal.str "READY") rfl rfl

theorem localWarnCount_true : ∀ n : Nat, localWarnCount true n = 0
  | 0 => rfl
  | n + 1 => by
      rw [localWarnCount]
      simp [isGoroutineRunning, localWarnCount_true n]

/-- Claim C6: with an empty pool, `go(f, ...args)` runs `f` locally on the
main side and settles with `f(...args)`; the advisory warning is emitted on
the first such call only — over any number `n` of consecutive empty-pool
calls starting with a clear flag, exactly `min n 1` warnings are emitted,
and none once the flag is set. -/
theorem empty_pool_local_call :
    ∀ {α β : Type} (f : α → β) (args : α) (warned : Bool) (n : Nat),
    (goLocalStep ([] : List Worker) warned f args).1 = some (f args)
    ∧ localWarnCount false n = min n 1
    ∧ localWarnCount true n = 0 := by
  intro α β f args warned n
  refine ⟨?_, ?_, localWarnCount_true n⟩
  · rw [goLocalStep]
    simp [isGoroutineRunning]
  · cases n with
    | zero => rfl
    | succ m =>
      rw [localWarnCount]
      simp [isGoroutineRunning, localWarnCount_true m]

theorem forkN_pool_length (now : Nat) :
    ∀ (n : Nat) (s : MainState),
      (forkN s n now).pool.length = s.pool.length + n
  | 0, s => rfl
  | n + 1, s => by
      rw [forkN, forkN_pool_length now n]
      simp [forkWorker]
      omega

/-- Claim C7: `start` rejects with a `RangeError` exactly when the
configured minimum worker count is below 1; on success, at least that many
workers have been forked into the pool by resolution time (the minimum is
the single integer itself, or the first element of a `[min, max]` pair). -/
theorem start_min_workers :
    ∀ (s : MainState) (opts : StartOptions) (now : Nat),
    (minWorkersOf opts.workers < 1 ↔
      start s opts now
        = Except.error (StartErr.rangeError
            "Worker numbers must not be smaller than 1"))
    ∧ (∀ cfg s', start s opts now = Except.ok (cfg, s') →
        (minWorkersOf opts.workers).toNat ≤ s'.pool.length) := by
  intro s opts now
  constructor
  · constructor
    · intro h
      rw [start, if_pos h]
    · intro h
      by_contra hc
      rw [start, if_neg hc] at h
      simp at h
  · intro cfg s' h
    by_cases hmin : minWorkersOf opts.workers < 1
    · rw [start, if_pos hmin] at h
      simp at h
    · rw [start, if_neg hmin] at h
      simp only [Except.ok.injEq, Prod.mk.injEq] at h
      rw [← h.2, forkN_pool_length]
      omega

/-- Witness for C7: `workers = 0` is rejected; `workers = 2` forks two
workers. -/
theorem start_min_workers_witness :
    (minWorkersOf (WorkersOpt.single 0) < 1 ↔
      start initState ⟨WorkersOpt.single 0, none⟩ 0
        = Except.error (StartErr.rangeError
            "Worker numbers must not be smaller than 1"))
    ∧ (minWorkersOf (WorkersOpt.single 2)).toNat
        ≤ (forkN initState 2 0).pool.length :=
  ⟨(start_min_workers initState ⟨WorkersOpt.single 0, none⟩ 0).1,
   (start_min_workers initState ⟨WorkersOpt.single 2, none⟩ 0).2
     ⟨LBMethod.roundRobin, 2⟩ (forkN initState 2 0) rfl⟩

/-- Counterexample to Claim C4 as stated: a worker dies unexpectedly
(thread adapter, exit code 0) while one pending call `(uid 5)` belongs to
it; the exit handler rejects nothing — it issues an empty rejection list
and the pending call is still in the task table afterwards. -/
theorem pending_calls_not_rejected_counterexample :
    isNormalExit AdapterName.worker_threads (some 0) none = false
    ∧ (handleWorkerExit ⟨[Worker.mk 0 0], 1, [(5, 0)]⟩ (Worker.mk 0 0)
        AdapterName.worker_threads (some 0) none 3).2 = []
    ∧ (5, 0) ∈ (handleWorkerExit ⟨[Worker.mk 0 0], 1, [(5, 0)]⟩ (Worker.mk 0 0)
        AdapterName.worker_threads (some 0) none 3).1.tasks := by
  decide

/-- Claim C4, amended: on any worker exit (normal or not), the handler
rejects no pending call and retries none — the pending-call table is left
exactly as it was, so calls sent to the dead worker simply never settle. -/
theorem pending_calls_not_rejected :
    ∀ (s : MainState) (w : Worker) (adapter : AdapterName)
      (code : Option Int) (signal : Option String) (now : Nat),
    (handleWorkerExit s w adapter code signal now).2 = []
    ∧ (handleWorkerExit s w adapter code signal now).1.tasks = s.tasks := by
  intro s w adapter code signal now
  rw [handleWorkerExit]
  split
  · exact ⟨rfl, rfl⟩
  · exact ⟨rfl, rfl⟩

end Goroutine
